import Mathlib

/-!
# Neon Snake: the game-state update loop of `src/app.js`

A shallow embedding of the simulation part of `src/app.js` (the module-level
game variables, `initGame`, `spawnFood`, `handleInput`, the overlay click
handler, `restartGame`, `update`, `endGame`) and theorems about it.

Modelling decisions:

* The module-level variables `snake`, `direction`, `nextDirection`, `food`,
  `score`, `gameOver`, `gameStarted`, `moveInterval`, `accumulator` are the
  fields of `State`; every function takes the state and gives the next one.
* Cells and direction vectors are pairs of integers, and so are `score` and
  `moveInterval`: the program only ever holds small whole numbers there, on
  which the arithmetic of JavaScript numbers is exact.
* The times `delta` (the host passes `timestamp - lastTime`, a fractional
  number) and `accumulator` are finite IEEE 754 binary64 numbers, `Double`.
  Every finite double is a whole multiple of 2^-1074, the smallest positive
  double, and `Double.quanta` is that multiple. `accumulator += delta` is the
  binary64 addition: the exact sum rounded to 53 significant bits, to nearest,
  ties to even (`round53`). `accumulator < moveInterval` compares the values
  exactly. NaN and the infinities are outside the model: the sum of two finite
  doubles is taken not to overflow (it would have to reach 2^1024).
* `Math.random` is an oracle: a call receives the list of the successive pairs
  `Math.floor(Math.random() * GRID_SIZE)` that its `spawnFood` loop would draw.
  A draw is a pair of `Fin GRID_SIZE`, the range of that expression.
* A call ends in one of three ways (`Outcome`): it returns; it is still inside
  the `while (true)` loop of `spawnFood` after all supplied draws were
  rejected; or it throws the `TypeError` of reading `snake[0].x` on an empty
  array. Each carries the values of the variables at that point.
* DOM effects (`updateScore`, `showOverlay`, `hideOverlay`) and drawing do not
  touch the variables above and are left out.
-/

namespace NeonSnake

/-- Grid config: `const GRID_SIZE = 20`. -/
def GRID_SIZE : Nat := 20

/-- An `{ x, y }` object: a grid cell or a direction vector. -/
structure Cell where
  x : Int
  y : Int
  deriving DecidableEq, Repr

/-- A finite JavaScript number (IEEE 754 binary64, neither NaN nor infinite),
given by the whole number of quanta 2^-1074 (the smallest positive double) it is
equal to: the number 1 has `quanta` 2^1074. -/
structure Double where
  quanta : Int
  deriving DecidableEq, Repr

/-- The double equal to the integer `n`. -/
def Double.ofInt (n : Int) : Double :=
  { quanta := n * ((1 <<< 1074 : Nat) : Int) }

instance (n : Nat) : OfNat Double n := ⟨Double.ofInt (n : Int)⟩

/-- Number of binary digits of `n`, by repeated halving (`fuel` bounds the
number of halvings). -/
def bitsAux : Nat → Nat → Nat
  | 0, _ => 0
  | fuel + 1, n => if n = 0 then 0 else bitsAux fuel (n / 2) + 1

/-- Number of binary digits of `n`: 0 for 0, and k when 2^(k-1) <= n < 2^k. -/
def bitLength (n : Nat) : Nat :=
  bitsAux n n

/-- Rounding of binary64 arithmetic on a whole number of quanta: keep the 53
leading binary digits, round to nearest, ties to the even neighbour. A number
of at most 53 digits (every subnormal is one) is kept as it is. -/
def round53 (k : Int) : Int :=
  let n := k.natAbs
  let sh := bitLength n - 53
  let q := n >>> sh
  let r := n - (q <<< sh)
  let half := (1 <<< sh) / 2
  let m :=
    if r < half then q
    else if half < r then q + 1
    else if sh = 0 ∨ q % 2 = 0 then q else q + 1
  if k < 0 then -((m <<< sh : Nat) : Int) else ((m <<< sh : Nat) : Int)

/-- The JavaScript `+` on two finite numbers: the exact sum, rounded. -/
def Double.add (a b : Double) : Double :=
  { quanta := round53 (a.quanta + b.quanta) }

instance : Add Double := ⟨Double.add⟩

instance : LT Double := ⟨fun a b => a.quanta < b.quanta⟩

instance : LE Double := ⟨fun a b => a.quanta ≤ b.quanta⟩

instance (a b : Double) : Decidable (a < b) :=
  inferInstanceAs (Decidable (a.quanta < b.quanta))

instance (a b : Double) : Decidable (a ≤ b) :=
  inferInstanceAs (Decidable (a.quanta ≤ b.quanta))

/-- The double 69.99999999999999: the one next below 70, that is 70 - 2^-46. -/
def justBelow70 : Double :=
  { quanta := 70 * ((1 <<< 1074 : Nat) : Int) - ((1 <<< 1028 : Nat) : Int) }

/-- The double 0.1, that is 3602879701896397 / 2^55. -/
def oneTenth : Double :=
  { quanta := ((3602879701896397 <<< 1019 : Nat) : Int) }

/-- The double 0.2, that is 3602879701896397 / 2^54. -/
def twoTenths : Double :=
  { quanta := ((3602879701896397 <<< 1020 : Nat) : Int) }

/-- The module-level game variables of `src/app.js` (lines 16-25). -/
structure State where
  snake : List Cell
  direction : Cell
  nextDirection : Cell
  food : Cell
  score : Int
  gameOver : Bool
  gameStarted : Bool
  moveInterval : Int
  accumulator : Double
  deriving DecidableEq, Repr

/-- One iteration's pair of random draws in `spawnFood`: the values of
`Math.floor(Math.random() * GRID_SIZE)` for `x` and for `y`. -/
abbrev Draw := Fin GRID_SIZE × Fin GRID_SIZE

/-- How a call ended, with the game variables at that point. -/
inductive Outcome where
  /-- The call returned. -/
  | ret (s : State)
  /-- Every supplied draw was rejected: `spawnFood` is still looping. -/
  | spin (s : State)
  /-- The call threw a `TypeError` (`snake[0]` is `undefined`). -/
  | throws (s : State)
  deriving DecidableEq, Repr

/-- The game variables when the call ended. -/
def Outcome.state : Outcome → State
  | .ret s => s
  | .spin s => s
  | .throws s => s

/-- The test `snake.some((seg) => seg.x === x && seg.y === y)`. -/
def onSnake (snake : List Cell) (x y : Int) : Bool :=
  snake.any (fun seg => seg.x == x && seg.y == y)

/-- The loop of `spawnFood` (lines 49-59) over the supplied draws: the first
draw that is not on the snake becomes the food; `none` when all are rejected. -/
def spawnFood : List Draw → List Cell → Option Cell
  | [], _ => none
  | d :: rest, snake =>
    let x : Int := (d.1.val : Int)
    let y : Int := (d.2.val : Int)
    if !(onSnake snake x y) then some { x := x, y := y }
    else spawnFood rest snake

/-- The function `initGame` (lines 27-43). -/
def initGame (draws : List Draw) (s : State) : Outcome :=
  let s1 : State :=
    { s with
      snake := [{ x := 10, y := 10 }, { x := 9, y := 10 }, { x := 8, y := 10 }]
      direction := { x := 1, y := 0 }
      nextDirection := { x := 1, y := 0 }
      score := 0
      gameOver := false
      gameStarted := false
      moveInterval := 140
      accumulator := 0 }
  match spawnFood draws s1.snake with
  | none => Outcome.spin s1
  | some f => Outcome.ret { s1 with food := f }

/-- The function `handleInput` (lines 70-100). -/
def handleInput (key : String) (s : State) : State :=
  let s1 : State :=
    if !s.gameStarted && !s.gameOver then { s with gameStarted := true } else s
  if key = "ArrowUp" ∨ key = "w" ∨ key = "W" then
    if s1.direction.y = 0 then { s1 with nextDirection := { x := 0, y := -1 } } else s1
  else if key = "ArrowDown" ∨ key = "s" ∨ key = "S" then
    if s1.direction.y = 0 then { s1 with nextDirection := { x := 0, y := 1 } } else s1
  else if key = "ArrowLeft" ∨ key = "a" ∨ key = "A" then
    if s1.direction.x = 0 then { s1 with nextDirection := { x := -1, y := 0 } } else s1
  else if key = "ArrowRight" ∨ key = "d" ∨ key = "D" then
    if s1.direction.x = 0 then { s1 with nextDirection := { x := 1, y := 0 } } else s1
  else s1

/-- The function `restartGame` (lines 167-169). -/
def restartGame (draws : List Draw) (s : State) : Outcome :=
  initGame draws s

/-- The click listener of the overlay (lines 158-165). -/
def overlayClick (draws : List Draw) (s : State) : Outcome :=
  if !s.gameStarted then Outcome.ret { s with gameStarted := true }
  else if s.gameOver then restartGame draws s
  else Outcome.ret s

/-- The function `endGame` (lines 219-222). -/
def endGame (s : State) : State :=
  { s with gameOver := true }

/-- The simulation tick: the body of `update` after the scheduler check
(lines 178-216). -/
def tick (draws : List Draw) (s : State) : Outcome :=
  let s1 : State := { s with direction := s.nextDirection }
  match s1.snake with
  | [] => Outcome.throws s1
  | head :: _ =>
    let newHead : Cell :=
      { x := head.x + s1.direction.x, y := head.y + s1.direction.y }
    if newHead.x < 0 || newHead.x ≥ (GRID_SIZE : Int) ||
        newHead.y < 0 || newHead.y ≥ (GRID_SIZE : Int) then
      Outcome.ret (endGame s1)
    else if onSnake s1.snake newHead.x newHead.y then
      Outcome.ret (endGame s1)
    else
      let s2 : State := { s1 with snake := newHead :: s1.snake }
      if newHead.x == s2.food.x && newHead.y == s2.food.y then
        let s3 : State := { s2 with score := s2.score + 10 }
        match spawnFood draws s3.snake with
        | none => Outcome.spin s3
        | some f =>
          Outcome.ret { s3 with food := f, moveInterval := max 70 (s3.moveInterval - 3) }
      else
        Outcome.ret { s2 with snake := s2.snake.dropLast }

/-- The function `update` (lines 171-217): the scheduler check (lines 172-176)
followed by the simulation tick. -/
def update (delta : Double) (draws : List Draw) (s : State) : Outcome :=
  if !s.gameStarted || s.gameOver then Outcome.ret s
  else
    let s1 : State := { s with accumulator := s.accumulator + delta }
    if s1.accumulator < Double.ofInt s1.moveInterval then Outcome.ret s1
    else tick draws { s1 with accumulator := 0 }

/-- States the game can be in between calls: those left by a returned
`initGame`, and from there by returned calls of `handleInput`, `update`, the
overlay click handler and `restartGame`, with any draws and arguments. -/
inductive Reachable : State → Prop
  | init (draws : List Draw) (s0 s : State) :
      initGame draws s0 = Outcome.ret s → Reachable s
  | input (key : String) (s : State) :
      Reachable s → Reachable (handleInput key s)
  | frame (delta : Double) (draws : List Draw) (s s' : State) :
      Reachable s → update delta draws s = Outcome.ret s' → Reachable s'
  | click (draws : List Draw) (s s' : State) :
      Reachable s → overlayClick draws s = Outcome.ret s' → Reachable s'
  | restart (draws : List Draw) (s s' : State) :
      Reachable s → restartGame draws s = Outcome.ret s' → Reachable s'

/-- Phase Running: `gameStarted` and not `gameOver`. -/
def Running (s : State) : Prop :=
  s.gameStarted = true ∧ s.gameOver = false

instance (s : State) : Decidable (Running s) := by
  unfold Running; infer_instance

/-- A state right after a first key press: the canonical start with the food
at (15, 15). -/
def startState : State :=
  { snake := [{ x := 10, y := 10 }, { x := 9, y := 10 }, { x := 8, y := 10 }]
    direction := { x := 1, y := 0 }
    nextDirection := { x := 1, y := 0 }
    food := { x := 15, y := 15 }
    score := 0
    gameOver := false
    gameStarted := true
    moveInterval := 140
    accumulator := 0 }

/-- A state right after `initGame`: the canonical start, not yet started, with
the food at (15, 15). -/
def freshState : State :=
  { startState with gameStarted := false }

/-- The cell `{ x: head.x + direction.x, y: head.y + direction.y }`. -/
def nextHead (head dir : Cell) : Cell :=
  { x := head.x + dir.x, y := head.y + dir.y }

/-- The cell lies inside the grid: both coordinates in `[0, GRID_SIZE)`. -/
def inGrid (c : Cell) : Prop :=
  0 ≤ c.x ∧ c.x < (GRID_SIZE : Int) ∧ 0 ≤ c.y ∧ c.y < (GRID_SIZE : Int)

instance (c : Cell) : Decidable (inGrid c) := by
  unfold inGrid; infer_instance

/-- Two vectors are orthogonal: their dot product is zero. -/
def orthogonal (a b : Cell) : Prop :=
  a.x * b.x + a.y * b.y = 0

instance (a b : Cell) : Decidable (orthogonal a b) := by
  unfold orthogonal; infer_instance

/-- The reverse of a direction vector. -/
def reverse (d : Cell) : Cell :=
  { x := -d.x, y := -d.y }

/-- The four unit direction vectors Up, Down, Left, Right. -/
def isUnitDir (d : Cell) : Prop :=
  d = { x := 0, y := -1 } ∨ d = { x := 0, y := 1 } ∨
  d = { x := -1, y := 0 } ∨ d = { x := 1, y := 0 }

/-- The direction a key requests, in the words of the specification:
ArrowUp/w/W is Up, ArrowDown/s/S is Down, ArrowLeft/a/A is Left,
ArrowRight/d/D is Right; any other key requests nothing. -/
def keyDirection (key : String) : Option Cell :=
  if key = "ArrowUp" ∨ key = "w" ∨ key = "W" then some { x := 0, y := -1 }
  else if key = "ArrowDown" ∨ key = "s" ∨ key = "S" then some { x := 0, y := 1 }
  else if key = "ArrowLeft" ∨ key = "a" ∨ key = "A" then some { x := -1, y := 0 }
  else if key = "ArrowRight" ∨ key = "d" ∨ key = "D" then some { x := 1, y := 0 }
  else none

/-- The cell a pair of draws denotes: `{ x, y }`. -/
def drawCell (d : Draw) : Cell :=
  { x := (d.1.val : Int), y := (d.2.val : Int) }

/-- The facts that hold of the game variables between calls. -/
structure Inv (s : State) : Prop where
  snake_ne : s.snake ≠ []
  food_off : s.food ∉ s.snake
  score_nonneg : 0 ≤ s.score
  nodup : s.snake.Nodup
  interval_ge : 70 ≤ s.moveInterval
  interval_le : s.moveInterval ≤ 140
  dir_unit : isUnitDir s.direction
  next_unit : isUnitDir s.nextDirection
  next_ok : s.nextDirection = s.direction ∨ orthogonal s.nextDirection s.direction

/-- Row `y` of the grid in the order a snake winding through the board visits
it: left to right on even rows, right to left on odd rows. -/
def boardRow (y : Nat) : List Cell :=
  if y % 2 = 0 then (List.range GRID_SIZE).map (fun (x : Nat) => { x := (x : Int), y := (y : Int) })
  else (List.range GRID_SIZE).reverse.map (fun (x : Nat) => { x := (x : Int), y := (y : Int) })

/-- All 400 cells of the grid as one winding path from (0,0) to (0,19). -/
def boardPath : List Cell :=
  (List.range GRID_SIZE).flatMap boardRow

/-- A running state at the end of a perfect game: the snake (399 cells) winds
through every cell but (0,0), where the food is; the head is at (1,0) moving
Left; 396 food items were eaten, so the score is 3960 and moveInterval is at
its floor. -/
def fullBoardState : State :=
  { snake := boardPath.tail
    direction := { x := -1, y := 0 }
    nextDirection := { x := -1, y := 0 }
    food := { x := 0, y := 0 }
    score := 3960
    gameOver := false
    gameStarted := true
    moveInterval := 70
    accumulator := 0 }

/-- The state `update` leaves when the tick eats the food and `spawnFood`
accepts the cell `f`: lines 204-213. -/
def eatResult (s : State) (newHead f : Cell) : State :=
  { s with
    accumulator := 0
    direction := s.nextDirection
    snake := newHead :: s.snake
    score := s.score + 10
    food := f
    moveInterval := max 70 (s.moveInterval - 3) }

/-- The game variables while `spawnFood` is still looping in a tick that ate
the food: lines 204-210, before a new food or moveInterval is assigned. -/
def eatPending (s : State) (newHead : Cell) : State :=
  { s with
    accumulator := 0
    direction := s.nextDirection
    snake := newHead :: s.snake
    score := s.score + 10 }

/-- A running state whose snake turned back next to its own tail: head (5,5),
body (5,6), (4,6), tail (4,5), moving up, the pending direction Left. -/
def tailChaseState : State :=
  { startState with
    snake := [{ x := 5, y := 5 }, { x := 5, y := 6 }, { x := 4, y := 6 }, { x := 4, y := 5 }]
    direction := { x := 0, y := -1 }
    nextDirection := { x := -1, y := 0 } }

/-- The feeding scenario of the specification: snake [(5,5),(4,5),(3,5)]
moving Right with the food at (6,5), in a running game. -/
def feedState : State :=
  { startState with
    snake := [{ x := 5, y := 5 }, { x := 4, y := 5 }, { x := 3, y := 5 }]
    food := { x := 6, y := 5 } }

/-! ## Basic facts about the embedding -/

theorem onSnake_iff (snake : List Cell) (x y : Int) :
    onSnake snake x y = true ↔ ({ x := x, y := y } : Cell) ∈ snake := by
  unfold onSnake
  rw [List.any_eq_true]
  constructor
  · rintro ⟨seg, hmem, h⟩
    simp only [Bool.and_eq_true, beq_iff_eq] at h
    obtain ⟨hx, hy⟩ := h
    cases seg
    simp only at hx hy
    subst hx; subst hy
    exact hmem
  · intro h
    exact ⟨_, h, by simp⟩

theorem Double.not_lt {a b : Double} : ¬ a < b ↔ b ≤ a :=
  Int.not_lt

set_option maxRecDepth 100000 in
/-- The addition of `Double` at known values of the JavaScript `+`: whole
milliseconds add exactly; 2^53 + 1 is 2^53 and 2^53 + 3 is 2^53 + 4 (ties to
even); 0.1 + 0.2 is 0.30000000000000004 (5404319552844596 / 2^54);
70 + 69.99999999999999 is 140; the smallest double added to itself is exact. -/
theorem Double.add_examples :
    (60 : Double) + 60 = 120 ∧
    Double.ofInt 9007199254740992 + 1 = Double.ofInt 9007199254740992 ∧
    Double.ofInt 9007199254740992 + 3 = Double.ofInt 9007199254740996 ∧
    oneTenth + twoTenths = { quanta := ((5404319552844596 <<< 1020 : Nat) : Int) } ∧
    (70 : Double) + justBelow70 = 140 ∧
    ({ quanta := 1 } : Double) + { quanta := 1 } = { quanta := 2 } ∧
    Double.ofInt (-9007199254740992) + Double.ofInt (-3) =
      Double.ofInt (-9007199254740996) := by
  decide

theorem tick_accumulator (draws : List Draw) (s : State) :
    (tick draws s).state.accumulator = s.accumulator := by
  unfold tick
  simp only
  split
  · rfl
  · split
    · rfl
    · split
      · rfl
      · split
        · split <;> rfl
        · rfl

theorem spawnFood_some (draws : List Draw) (snake : List Cell) (f : Cell)
    (h : spawnFood draws snake = some f) :
    f ∉ snake ∧ inGrid f ∧ ∃ d ∈ draws, f = drawCell d := by
  induction draws with
  | nil => simp [spawnFood] at h
  | cons d rest ih =>
    unfold spawnFood at h
    simp only at h
    by_cases hon : onSnake snake (d.1.val : Int) (d.2.val : Int) = true
    · simp only [hon, Bool.not_true, Bool.false_eq_true, ↓reduceIte] at h
      obtain ⟨h1, h2, d', hd', h3⟩ := ih h
      exact ⟨h1, h2, d', List.mem_cons_of_mem _ hd', h3⟩
    · have hoff : onSnake snake (d.1.val : Int) (d.2.val : Int) = false := by
        simpa using hon
      simp only [hoff, Bool.not_false, ↓reduceIte, Option.some.injEq] at h
      subst h
      refine ⟨?_, ?_, d, List.mem_cons_self _ _, rfl⟩
      · intro hmem
        rw [← onSnake_iff] at hmem
        exact hon hmem
      · have h1 := d.1.isLt
        have h2 := d.2.isLt
        unfold inGrid
        simp only
        omega

theorem spawnFood_none_iff (draws : List Draw) (snake : List Cell) :
    spawnFood draws snake = none ↔ ∀ d ∈ draws, drawCell d ∈ snake := by
  induction draws with
  | nil => simp [spawnFood]
  | cons d rest ih =>
    unfold spawnFood
    simp only
    by_cases hon : onSnake snake (d.1.val : Int) (d.2.val : Int) = true
    · simp only [hon, Bool.not_true, Bool.false_eq_true, ↓reduceIte, ih, List.mem_cons,
        forall_eq_or_imp]
      have hmem : drawCell d ∈ snake := (onSnake_iff _ _ _).mp hon
      exact ⟨fun h => ⟨hmem, h⟩, fun h => h.2⟩
    · have hoff : onSnake snake (d.1.val : Int) (d.2.val : Int) = false := by
        simpa using hon
      simp only [hoff, Bool.not_false, ↓reduceIte, reduceCtorEq, List.mem_cons,
        forall_eq_or_imp, false_iff, not_and]
      intro hmem
      exact absurd ((onSnake_iff _ _ _).mpr hmem) hon

theorem isUnitDir_ne_reverse (d : Cell) (h : isUnitDir d) : d ≠ reverse d := by
  unfold isUnitDir at h
  rcases h with h | h | h | h <;> rw [h] <;> decide

theorem orthogonal_ne_reverse (a d : Cell) (hd : isUnitDir d) (h : orthogonal a d) :
    a ≠ reverse d := by
  intro ha
  unfold isUnitDir at hd
  rcases hd with hd | hd | hd | hd <;> rw [ha, hd] at h <;> revert h <;> decide

theorem initGame_ret (draws : List Draw) (s0 s : State)
    (h : initGame draws s0 = Outcome.ret s) :
    ∃ f, f ∉ [({ x := 10, y := 10 } : Cell), { x := 9, y := 10 }, { x := 8, y := 10 }] ∧
      s = { snake := [{ x := 10, y := 10 }, { x := 9, y := 10 }, { x := 8, y := 10 }]
            direction := { x := 1, y := 0 }
            nextDirection := { x := 1, y := 0 }
            food := f
            score := 0
            gameOver := false
            gameStarted := false
            moveInterval := 140
            accumulator := 0 } := by
  unfold initGame at h
  simp only at h
  split at h
  · exact absurd h (by simp)
  · rename_i f hf
    simp only [Outcome.ret.injEq] at h
    exact ⟨f, (spawnFood_some _ _ _ hf).1, h.symm⟩

theorem initGame_inv (draws : List Draw) (s0 s : State)
    (h : initGame draws s0 = Outcome.ret s) : Inv s := by
  obtain ⟨f, hf, rfl⟩ := initGame_ret draws s0 s h
  exact
    { snake_ne := by simp
      food_off := hf
      score_nonneg := le_refl _
      nodup := by simp only; decide
      interval_ge := by simp only; decide
      interval_le := by simp only; decide
      dir_unit := by unfold isUnitDir; simp
      next_unit := by unfold isUnitDir; simp
      next_ok := Or.inl rfl }

theorem handleInput_frame (key : String) (s : State) :
    (handleInput key s).snake = s.snake ∧ (handleInput key s).food = s.food ∧
    (handleInput key s).score = s.score ∧
    (handleInput key s).moveInterval = s.moveInterval ∧
    (handleInput key s).direction = s.direction ∧
    (handleInput key s).gameOver = s.gameOver ∧
    (handleInput key s).accumulator = s.accumulator := by
  unfold handleInput
  simp only
  split_ifs <;> exact ⟨rfl, rfl, rfl, rfl, rfl, rfl, rfl⟩

theorem handleInput_next (key : String) (s : State) :
    (handleInput key s).nextDirection = s.nextDirection ∨
    (isUnitDir (handleInput key s).nextDirection ∧
      orthogonal (handleInput key s).nextDirection s.direction) := by
  unfold handleInput
  simp only
  split_ifs with h0 h1 h2 <;>
    first
      | exact Or.inl rfl
      | (refine Or.inr ⟨?_, ?_⟩
         · unfold isUnitDir; simp
         · unfold orthogonal
           simp only at *
           simp [*])

theorem handleInput_inv (key : String) (s : State) (h : Inv s) :
    Inv (handleInput key s) := by
  obtain ⟨f1, f2, f3, f4, f5, f6, f7⟩ := handleInput_frame key s
  have hn := handleInput_next key s
  exact
    { snake_ne := by rw [f1]; exact h.snake_ne
      food_off := by rw [f1, f2]; exact h.food_off
      score_nonneg := by rw [f3]; exact h.score_nonneg
      nodup := by rw [f1]; exact h.nodup
      interval_ge := by rw [f4]; exact h.interval_ge
      interval_le := by rw [f4]; exact h.interval_le
      dir_unit := by rw [f5]; exact h.dir_unit
      next_unit := by
        rcases hn with hn | hn
        · rw [hn]; exact h.next_unit
        · exact hn.1
      next_ok := by
        rw [f5]
        rcases hn with hn | hn
        · rw [hn]; exact h.next_ok
        · exact Or.inr hn.2 }

theorem update_scheduler_aux (delta : Double) (draws : List Draw) (s : State)
    (hr : Running s) :
    (s.accumulator + delta < Double.ofInt s.moveInterval →
      update delta draws s =
        Outcome.ret { s with accumulator := s.accumulator + delta }) ∧
    (Double.ofInt s.moveInterval ≤ s.accumulator + delta →
      update delta draws s = tick draws { s with accumulator := 0 }) := by
  obtain ⟨hs, ho⟩ := hr
  constructor
  · intro hlt
    unfold update
    simp [hs, ho, hlt]
  · intro hge
    unfold update
    simp [hs, ho, Double.not_lt.mpr hge]

theorem tick_inv (draws : List Draw) (s s' : State) (h : Inv s)
    (hret : tick draws s = Outcome.ret s') : Inv s' := by
  have hdir : isUnitDir s.nextDirection := h.next_unit
  unfold tick at hret
  simp only at hret
  cases hs : s.snake with
  | nil => exact absurd hs h.snake_ne
  | cons head rest =>
    rw [hs] at hret
    simp only at hret
    have hnd : (head :: rest).Nodup := hs ▸ h.nodup
    have hfood : s.food ∉ head :: rest := hs ▸ h.food_off
    split_ifs at hret with hwall hself heat
    · simp only [endGame, Outcome.ret.injEq] at hret
      subst hret
      exact
        { snake_ne := by simp
          food_off := hfood
          score_nonneg := h.score_nonneg
          nodup := hnd
          interval_ge := h.interval_ge
          interval_le := h.interval_le
          dir_unit := hdir
          next_unit := hdir
          next_ok := Or.inl rfl }
    · simp only [endGame, Outcome.ret.injEq] at hret
      subst hret
      exact
        { snake_ne := by simp
          food_off := hfood
          score_nonneg := h.score_nonneg
          nodup := hnd
          interval_ge := h.interval_ge
          interval_le := h.interval_le
          dir_unit := hdir
          next_unit := hdir
          next_ok := Or.inl rfl }
    · split at hret
      · exact absurd hret (by simp)
      · rename_i f hf
        simp only [Outcome.ret.injEq] at hret
        subst hret
        have hnew : nextHead head s.nextDirection ∉ head :: rest := by
          intro hmem
          exact hself ((onSnake_iff _ _ _).mpr hmem)
        exact
          { snake_ne := by simp
            food_off := (spawnFood_some _ _ _ hf).1
            score_nonneg := by
              have := h.score_nonneg
              simp only
              omega
            nodup := List.nodup_cons.mpr ⟨hnew, hnd⟩
            interval_ge := le_max_left _ _
            interval_le := by
              have := h.interval_le
              simp only
              omega
            dir_unit := hdir
            next_unit := hdir
            next_ok := Or.inl rfl }
    · simp only [Outcome.ret.injEq] at hret
      subst hret
      have hnew : nextHead head s.nextDirection ∉ head :: rest := by
        intro hmem
        exact hself ((onSnake_iff _ _ _).mpr hmem)
      have hdl : (nextHead head s.nextDirection :: head :: rest).dropLast =
          nextHead head s.nextDirection :: (head :: rest).dropLast := rfl
      have hsub : ∀ c, c ∈ (head :: rest).dropLast → c ∈ head :: rest :=
        fun c hc => (List.dropLast_sublist _).subset hc
      have hne : s.food ≠ nextHead head s.nextDirection := by
        intro hc
        apply heat
        rw [hc]
        simp [nextHead]
      exact
        { snake_ne := by
            show (nextHead head s.nextDirection :: head :: rest).dropLast ≠ []
            rw [hdl]
            simp
          food_off := by
            show s.food ∉ (nextHead head s.nextDirection :: head :: rest).dropLast
            rw [hdl]
            simp only [List.mem_cons, not_or]
            exact ⟨hne, fun hc => hfood (hsub _ hc)⟩
          score_nonneg := h.score_nonneg
          nodup := by
            show (nextHead head s.nextDirection :: head :: rest).dropLast.Nodup
            rw [hdl]
            exact List.nodup_cons.mpr
              ⟨fun hc => hnew (hsub _ hc), hnd.sublist (List.dropLast_sublist _)⟩
          interval_ge := h.interval_ge
          interval_le := h.interval_le
          dir_unit := hdir
          next_unit := hdir
          next_ok := Or.inl rfl }

theorem tick_direction (draws : List Draw) (s : State) :
    (tick draws s).state.direction = s.nextDirection := by
  unfold tick
  simp only
  split
  · rfl
  · split
    · rfl
    · split
      · rfl
      · split
        · split <;> rfl
        · rfl

theorem tick_moveInterval (draws : List Draw) (s : State) :
    (tick draws s).state.moveInterval = s.moveInterval ∨
    (tick draws s).state.moveInterval = max 70 (s.moveInterval - 3) := by
  unfold tick
  simp only
  split
  · exact Or.inl rfl
  · split
    · exact Or.inl rfl
    · split
      · exact Or.inl rfl
      · split
        · split
          · exact Or.inl rfl
          · exact Or.inr rfl
        · exact Or.inl rfl

theorem update_cases (delta : Double) (draws : List Draw) (s : State) :
    update delta draws s = Outcome.ret s ∨
    update delta draws s = Outcome.ret { s with accumulator := s.accumulator + delta } ∨
    (Running s ∧ update delta draws s = tick draws { s with accumulator := 0 }) := by
  by_cases hr : Running s
  · by_cases hlt : s.accumulator + delta < Double.ofInt s.moveInterval
    · exact Or.inr (Or.inl ((update_scheduler_aux delta draws s hr).1 hlt))
    · exact Or.inr (Or.inr ⟨hr, (update_scheduler_aux delta draws s hr).2 (Double.not_lt.mp hlt)⟩)
  · left
    unfold Running at hr
    unfold update
    cases hs : s.gameStarted <;> cases ho : s.gameOver <;> simp_all

theorem inv_accumulator (s : State) (a : Double) (h : Inv s) :
    Inv { s with accumulator := a } :=
  { snake_ne := h.snake_ne
    food_off := h.food_off
    score_nonneg := h.score_nonneg
    nodup := h.nodup
    interval_ge := h.interval_ge
    interval_le := h.interval_le
    dir_unit := h.dir_unit
    next_unit := h.next_unit
    next_ok := h.next_ok }

theorem update_inv (delta : Double) (draws : List Draw) (s s' : State) (h : Inv s)
    (hret : update delta draws s = Outcome.ret s') : Inv s' := by
  rcases update_cases delta draws s with hc | hc | ⟨_, hc⟩
  · rw [hc] at hret
    simp only [Outcome.ret.injEq] at hret
    exact hret ▸ h
  · rw [hc] at hret
    simp only [Outcome.ret.injEq] at hret
    exact hret ▸ inv_accumulator s _ h
  · rw [hc] at hret
    exact tick_inv draws _ s' (inv_accumulator s 0 h) hret

theorem overlayClick_inv (draws : List Draw) (s s' : State) (h : Inv s)
    (hret : overlayClick draws s = Outcome.ret s') : Inv s' := by
  unfold overlayClick at hret
  split_ifs at hret
  · simp only [Outcome.ret.injEq] at hret
    subst hret
    exact
      { snake_ne := h.snake_ne
        food_off := h.food_off
        score_nonneg := h.score_nonneg
        nodup := h.nodup
        interval_ge := h.interval_ge
        interval_le := h.interval_le
        dir_unit := h.dir_unit
        next_unit := h.next_unit
        next_ok := h.next_ok }
  · exact initGame_inv draws s s' hret
  · simp only [Outcome.ret.injEq] at hret
    exact hret ▸ h

theorem reachable_inv (s : State) (h : Reachable s) : Inv s := by
  induction h with
  | init draws s0 s hret => exact initGame_inv draws s0 s hret
  | input key s _ ih => exact handleInput_inv key s ih
  | frame delta draws s s' _ hret ih => exact update_inv delta draws s s' ih hret
  | click draws s s' _ hret ih => exact overlayClick_inv draws s s' ih hret
  | restart draws s s' _ hret _ => exact initGame_inv draws s s' hret

theorem reachable_freshState : Reachable freshState :=
  Reachable.init [(⟨15, by decide⟩, ⟨15, by decide⟩)] freshState freshState (by decide)

theorem reachable_startState : Reachable startState :=
  Reachable.input "Enter" freshState reachable_freshState

theorem update_eat_outcome (delta : Double) (draws : List Draw) (s : State)
    (head : Cell) (rest : List Cell)
    (hr : Running s) (hfire : Double.ofInt s.moveInterval ≤ s.accumulator + delta)
    (hsnake : s.snake = head :: rest)
    (hin : inGrid (nextHead head s.nextDirection))
    (hself : nextHead head s.nextDirection ∉ s.snake)
    (hfood : nextHead head s.nextDirection = s.food) :
    update delta draws s =
      match spawnFood draws (nextHead head s.nextDirection :: s.snake) with
      | none => Outcome.spin (eatPending s (nextHead head s.nextDirection))
      | some f => Outcome.ret (eatResult s (nextHead head s.nextDirection) f) := by
  rw [(update_scheduler_aux delta draws s hr).2 hfire]
  obtain ⟨h0x, hxn, h0y, hyn⟩ := hin
  have hon : onSnake (head :: rest) (head.x + s.nextDirection.x)
      (head.y + s.nextDirection.y) = false := by
    rw [Bool.eq_false_iff]
    intro hc
    rw [onSnake_iff] at hc
    rw [hsnake] at hself
    exact hself hc
  have hx : head.x + s.nextDirection.x = s.food.x := by rw [← hfood]; rfl
  have hy : head.y + s.nextDirection.y = s.food.y := by rw [← hfood]; rfl
  have heat : (head.x + s.nextDirection.x == s.food.x &&
      head.y + s.nextDirection.y == s.food.y) = true := by
    simp [hx, hy]
  simp only [nextHead] at h0x hxn h0y hyn
  unfold tick
  simp only [nextHead, eatPending, eatResult, hsnake]
  simp only [hon, not_lt.mpr h0x, not_le.mpr hxn, not_lt.mpr h0y, not_le.mpr hyn,
    Bool.or_false, decide_False, Bool.false_eq_true, ↓reduceIte, ge_iff_le, heat]

theorem exists_draw (c : Cell) (h : inGrid c) : ∃ d : Draw, drawCell d = c := by
  obtain ⟨h0x, hxn, h0y, hyn⟩ := h
  have hx : c.x.toNat < GRID_SIZE := by unfold GRID_SIZE at *; omega
  have hy : c.y.toNat < GRID_SIZE := by unfold GRID_SIZE at *; omega
  refine ⟨(⟨c.x.toNat, hx⟩, ⟨c.y.toNat, hy⟩), ?_⟩
  cases c
  simp only [drawCell, Cell.mk.injEq] at *
  omega

theorem drawCell_mem_boardPath (d : Draw) : drawCell d ∈ boardPath := by
  unfold boardPath
  rw [List.mem_flatMap]
  refine ⟨d.2.val, List.mem_range.mpr d.2.isLt, ?_⟩
  unfold boardRow
  split_ifs
  · rw [List.mem_map]
    exact ⟨d.1.val, List.mem_range.mpr d.1.isLt, rfl⟩
  · rw [List.mem_map]
    exact ⟨d.1.val, List.mem_reverse.mpr (List.mem_range.mpr d.1.isLt), rfl⟩

theorem boardRow_y (y : Nat) (c : Cell) (h : c ∈ boardRow y) : c.y = (y : Int) := by
  unfold boardRow at h
  split_ifs at h <;>
    (rw [List.mem_map] at h
     obtain ⟨x, _, rfl⟩ := h
     rfl)

theorem boardRow_nodup (y : Nat) : (boardRow y).Nodup := by
  have hinj : Function.Injective
      (fun (x : Nat) => ({ x := (x : Int), y := (y : Int) } : Cell)) := by
    intro a b hab
    simp only [Cell.mk.injEq, Nat.cast_inj, and_true] at hab
    exact hab
  unfold boardRow
  split_ifs
  · exact (List.nodup_range _).map hinj
  · exact (List.nodup_reverse.mpr (List.nodup_range _)).map hinj

theorem boardPath_nodup : boardPath.Nodup := by
  unfold boardPath
  rw [List.nodup_flatMap]
  refine ⟨fun y _ => boardRow_nodup y, ?_⟩
  refine (List.pairwise_lt_range _).imp ?_
  intro a b hab
  rw [Function.onFun, List.disjoint_left]
  intro c hca hcb
  have h1 := boardRow_y a c hca
  have h2 := boardRow_y b c hcb
  omega

theorem fullBoardState_nodup : fullBoardState.snake.Nodup := by
  show boardPath.tail.Nodup
  exact List.Nodup.sublist (List.tail_sublist boardPath) boardPath_nodup

/-! ## Claims -/

/-- C8. When the game has not started or is over, `update(delta)` returns
leaving every game variable (snake, direction, nextDirection, food, score,
moveInterval, accumulator, gameStarted, gameOver) as it was, for every delta
and whatever `Math.random` would give. -/
theorem update_not_running_noop (delta : Double) (draws : List Draw) (s : State)
    (h : ¬ Running s) : update delta draws s = Outcome.ret s := by
  unfold Running at h
  unfold update
  cases hs : s.gameStarted <;> cases ho : s.gameOver <;> simp_all

theorem update_not_running_noop_witness :
    ¬ Running freshState ∧ ¬ Running (endGame startState) ∧
    update 1000 [] freshState = Outcome.ret freshState ∧
    update 1000 [] (endGame startState) = Outcome.ret (endGame startState) :=
  ⟨by decide, by decide,
   update_not_running_noop 1000 [] freshState (by decide),
   update_not_running_noop 1000 [] (endGame startState) (by decide)⟩

/-- C7. In a running state one call `update(delta)` performs at most one
simulation tick, for every finite delta (so for every delta >= 0), where
`accumulator + delta` is the sum that `accumulator += delta` computes, a
binary64 addition: when `accumulator + delta < moveInterval` there is no tick,
the call returns with the accumulator at `accumulator + delta` and nothing
else changed; when `accumulator + delta >= moveInterval` the call is exactly
one tick run on the state whose accumulator was reset to 0, and the
accumulator is 0 when the call ends, whatever the surplus was. -/
theorem update_scheduler (delta : Double) (draws : List Draw) (s : State)
    (hr : Running s) :
    (s.accumulator + delta < Double.ofInt s.moveInterval →
      update delta draws s =
        Outcome.ret { s with accumulator := s.accumulator + delta }) ∧
    (Double.ofInt s.moveInterval ≤ s.accumulator + delta →
      update delta draws s = tick draws { s with accumulator := 0 } ∧
      (update delta draws s).state.accumulator = 0) := by
  refine ⟨(update_scheduler_aux delta draws s hr).1, fun hge => ?_⟩
  have heq := (update_scheduler_aux delta draws s hr).2 hge
  exact ⟨heq, by rw [heq, tick_accumulator]⟩

set_option maxRecDepth 100000 in
theorem update_scheduler_witness :
    Running startState ∧
    update 60 [] startState = Outcome.ret { startState with accumulator := 60 } ∧
    update 60 [] { startState with accumulator := 60 } =
      Outcome.ret { startState with accumulator := 120 } ∧
    update 60 [] { startState with accumulator := 120 } =
      tick [] { startState with accumulator := 0 } ∧
    tick [] { startState with accumulator := 0 } =
      Outcome.ret { startState with
        snake := [{ x := 11, y := 10 }, { x := 10, y := 10 }, { x := 9, y := 10 }] } ∧
    (update 60 [] { startState with accumulator := 120 }).state.accumulator = 0 ∧
    update oneTenth [] { startState with accumulator := twoTenths } =
      Outcome.ret { startState with accumulator := twoTenths + oneTenth } ∧
    update justBelow70 [] { startState with accumulator := 70 } =
      tick [] { startState with accumulator := 0 } :=
  ⟨by decide,
   (update_scheduler 60 [] startState (by decide)).1 (by decide),
   (update_scheduler 60 [] { startState with accumulator := 60 } (by decide)).1 (by decide),
   ((update_scheduler 60 [] { startState with accumulator := 120 } (by decide)).2
      (by decide)).1,
   by decide,
   ((update_scheduler 60 [] { startState with accumulator := 120 } (by decide)).2
      (by decide)).2,
   (update_scheduler oneTenth [] { startState with accumulator := twoTenths }
      (by decide)).1 (by decide),
   ((update_scheduler justBelow70 [] { startState with accumulator := 70 } (by decide)).2
      (by decide)).1⟩

/-- C3. In a running state in which the tick fires and the new head
(head + pending direction) is inside the grid, is not on the snake and is not
the food cell, `update` returns with the snake equal to the new head followed
by the previous snake without its last cell (same length); score, food and
moveInterval are unchanged (the only other changes are the accumulator reset
and the pending direction becoming the applied one). -/
theorem update_plain_move (delta : Double) (draws : List Draw) (s : State)
    (head : Cell) (rest : List Cell)
    (hr : Running s) (hfire : Double.ofInt s.moveInterval ≤ s.accumulator + delta)
    (hsnake : s.snake = head :: rest)
    (hin : inGrid (nextHead head s.nextDirection))
    (hself : nextHead head s.nextDirection ∉ s.snake)
    (hfood : nextHead head s.nextDirection ≠ s.food) :
    update delta draws s =
      Outcome.ret { s with
        accumulator := 0
        direction := s.nextDirection
        snake := nextHead head s.nextDirection :: s.snake.dropLast } ∧
    (update delta draws s).state.snake.length = s.snake.length ∧
    (update delta draws s).state.score = s.score ∧
    (update delta draws s).state.food = s.food ∧
    (update delta draws s).state.moveInterval = s.moveInterval := by
  have heq : update delta draws s =
      Outcome.ret { s with
        accumulator := 0
        direction := s.nextDirection
        snake := nextHead head s.nextDirection :: s.snake.dropLast } := by
    rw [(update_scheduler_aux delta draws s hr).2 hfire]
    obtain ⟨h0x, hxn, h0y, hyn⟩ := hin
    have hon : onSnake (head :: rest) (head.x + s.nextDirection.x)
        (head.y + s.nextDirection.y) = false := by
      rw [Bool.eq_false_iff]
      intro hc
      rw [onSnake_iff] at hc
      rw [hsnake] at hself
      exact hself hc
    have hne : ¬ (head.x + s.nextDirection.x = s.food.x ∧
        head.y + s.nextDirection.y = s.food.y) := by
      rintro ⟨hx, hy⟩
      apply hfood
      cases hf : s.food
      rw [hf] at hx hy
      simp only [nextHead] at *
      simp only [hx, hy]
    simp only [nextHead] at h0x hxn h0y hyn
    unfold tick
    simp only [hsnake]
    simp only [hon, not_lt.mpr h0x, not_le.mpr hxn, not_lt.mpr h0y, not_le.mpr hyn,
      Bool.or_false, decide_False, Bool.false_eq_true, ↓reduceIte, ge_iff_le,
      Bool.and_eq_true, beq_iff_eq, hne, nextHead]
    cases rest <;> rfl
  refine ⟨heq, ?_, ?_, ?_, ?_⟩
  · rw [heq, hsnake]
    simp [Outcome.state]
  · rw [heq]; rfl
  · rw [heq]; rfl
  · rw [heq]; rfl

set_option maxRecDepth 100000 in
theorem update_plain_move_witness :
    update 140 [] startState =
      Outcome.ret { startState with
        snake := [{ x := 11, y := 10 }, { x := 10, y := 10 }, { x := 9, y := 10 }] } ∧
    (update 140 [] startState).state.snake.length = 3 ∧
    (update 140 [] startState).state.score = 0 ∧
    (update 140 [] startState).state.food = { x := 15, y := 15 } ∧
    (update 140 [] startState).state.moveInterval = 140 :=
  update_plain_move 140 [] startState { x := 10, y := 10 }
    [{ x := 9, y := 10 }, { x := 8, y := 10 }]
    (by decide) (by decide) rfl (by decide) (by decide) (by decide)

/-- C4. In a running state in which the tick fires and the new head
(head + pending direction) is outside the grid, or equals a cell of the
pre-move snake, its last (tail) cell included, `update` returns with
gameOver = true and with snake, food, score and moveInterval exactly as they
were (the only other changes are the accumulator reset and the pending
direction becoming the applied one). -/
theorem update_collision (delta : Double) (draws : List Draw) (s : State)
    (head : Cell) (rest : List Cell)
    (hr : Running s) (hfire : Double.ofInt s.moveInterval ≤ s.accumulator + delta)
    (hsnake : s.snake = head :: rest)
    (hhit : ¬ inGrid (nextHead head s.nextDirection) ∨
      nextHead head s.nextDirection ∈ s.snake ∨
      s.snake.getLast? = some (nextHead head s.nextDirection)) :
    update delta draws s =
      Outcome.ret { s with
        accumulator := 0
        direction := s.nextDirection
        gameOver := true } ∧
    (update delta draws s).state.gameOver = true ∧
    (update delta draws s).state.snake = s.snake ∧
    (update delta draws s).state.food = s.food ∧
    (update delta draws s).state.score = s.score ∧
    (update delta draws s).state.moveInterval = s.moveInterval := by
  have heq : update delta draws s =
      Outcome.ret { s with
        accumulator := 0
        direction := s.nextDirection
        gameOver := true } := by
    rw [(update_scheduler_aux delta draws s hr).2 hfire]
    have hhit2 : ¬ inGrid (nextHead head s.nextDirection) ∨
        nextHead head s.nextDirection ∈ s.snake := by
      rcases hhit with h | h | h
      · exact Or.inl h
      · exact Or.inr h
      · exact Or.inr (List.mem_of_getLast?_eq_some h)
    unfold tick
    simp only [hsnake]
    by_cases hwall : (decide (head.x + s.nextDirection.x < 0) ||
        decide (head.x + s.nextDirection.x ≥ (GRID_SIZE : Int)) ||
        decide (head.y + s.nextDirection.y < 0) ||
        decide (head.y + s.nextDirection.y ≥ (GRID_SIZE : Int))) = true
    · simp only [hwall, ↓reduceIte, endGame]
    · simp only [hwall, ↓reduceIte, endGame]
      have hon : onSnake (head :: rest) (head.x + s.nextDirection.x)
          (head.y + s.nextDirection.y) = true := by
        rw [onSnake_iff]
        rcases hhit2 with h | h
        · exfalso
          apply h
          simp only [Bool.or_eq_true, decide_eq_true_eq, not_or, not_lt, ge_iff_le,
            not_le] at hwall
          obtain ⟨⟨⟨h1, h2⟩, h3⟩, h4⟩ := hwall
          exact ⟨h1, h2, h3, h4⟩
        · rw [hsnake] at h
          exact h
      simp only [hon, ↓reduceIte, Bool.false_eq_true]
  refine ⟨heq, ?_, ?_, ?_, ?_, ?_⟩ <;> rw [heq] <;> rfl

set_option maxRecDepth 100000 in
theorem update_collision_witness :
    (update 140 []
        { startState with snake := [{ x := 19, y := 10 }, { x := 18, y := 10 }] } =
      Outcome.ret { startState with
        snake := [{ x := 19, y := 10 }, { x := 18, y := 10 }], gameOver := true }) ∧
    (update 140 [] tailChaseState).state.gameOver = true ∧
    (update 140 [] tailChaseState).state.snake = tailChaseState.snake :=
  ⟨(update_collision 140 []
      { startState with snake := [{ x := 19, y := 10 }, { x := 18, y := 10 }] }
      { x := 19, y := 10 } [{ x := 18, y := 10 }]
      (by decide) (by decide) rfl (Or.inl (by decide))).1,
   (update_collision 140 [] tailChaseState { x := 5, y := 5 }
      [{ x := 5, y := 6 }, { x := 4, y := 6 }, { x := 4, y := 5 }]
      (by decide) (by decide) rfl (Or.inr (Or.inr (by decide)))).2.1,
   (update_collision 140 [] tailChaseState { x := 5, y := 5 }
      [{ x := 5, y := 6 }, { x := 4, y := 6 }, { x := 4, y := 5 }]
      (by decide) (by decide) rfl (Or.inr (Or.inr (by decide)))).2.2.1⟩

/-- C5. For every state and every recognised direction key, `handleInput`
sets nextDirection to the requested direction when that direction is
orthogonal to the applied direction, and leaves nextDirection as it was when
it is not orthogonal, in particular when the request equals the applied
direction or its reverse; direction, snake, food, score and moveInterval are
never changed. -/
theorem handleInput_direction_key (key : String) (s : State) (d : Cell)
    (hkey : keyDirection key = some d) :
    (orthogonal d s.direction → (handleInput key s).nextDirection = d) ∧
    (¬ orthogonal d s.direction →
      (handleInput key s).nextDirection = s.nextDirection) ∧
    (d = s.direction ∨ d = reverse s.direction →
      (handleInput key s).nextDirection = s.nextDirection) ∧
    (handleInput key s).direction = s.direction ∧
    (handleInput key s).snake = s.snake ∧
    (handleInput key s).food = s.food ∧
    (handleInput key s).score = s.score ∧
    (handleInput key s).moveInterval = s.moveInterval := by
  have hsame : d = s.direction ∨ d = reverse s.direction → ¬ orthogonal d s.direction := by
    intro h
    have hd : isUnitDir d := by
      unfold keyDirection at hkey
      unfold isUnitDir
      split_ifs at hkey <;> simp only [Option.some.injEq, reduceCtorEq] at hkey <;>
        simp [← hkey]
    cases hdir : s.direction with
    | mk dx dy =>
      rw [hdir] at h
      unfold orthogonal
      simp only [reverse] at h
      rcases hd with hd | hd | hd | hd <;> rcases h with h | h <;>
        rw [hd] at h ⊢ <;> simp only [Cell.mk.injEq] at h <;>
        obtain ⟨h1, h2⟩ := h <;> simp only <;> omega
  have hmain : (orthogonal d s.direction → (handleInput key s).nextDirection = d) ∧
      (¬ orthogonal d s.direction →
        (handleInput key s).nextDirection = s.nextDirection) ∧
      (handleInput key s).direction = s.direction ∧
      (handleInput key s).snake = s.snake ∧
      (handleInput key s).food = s.food ∧
      (handleInput key s).score = s.score ∧
      (handleInput key s).moveInterval = s.moveInterval := by
    unfold keyDirection at hkey
    unfold handleInput orthogonal
    split_ifs at hkey with h1 h2 h3 h4 <;>
      simp only [Option.some.injEq, reduceCtorEq] at hkey <;>
      subst hkey <;>
      simp only [*, ↓reduceIte] <;>
      (by_cases hstart : (!s.gameStarted && !s.gameOver) = true <;>
        simp only [hstart, ↓reduceIte, Bool.false_eq_true] <;>
        refine ⟨?_, ?_, ?_⟩ <;>
        first
          | (intro ho; split_ifs with hz <;> first | rfl | (exfalso; omega))
          | (split_ifs <;> exact ⟨rfl, rfl, rfl, rfl, rfl⟩))
  obtain ⟨m1, m2, m3, m4, m5, m6, m7⟩ := hmain
  exact ⟨m1, m2, fun h => m2 (hsame h), m3, m4, m5, m6, m7⟩

theorem handleInput_direction_key_witness :
    ((handleInput "ArrowUp" startState).nextDirection = { x := 0, y := -1 }) ∧
    ((handleInput "ArrowLeft" startState).nextDirection = startState.nextDirection) ∧
    ((handleInput "d" startState).nextDirection = startState.nextDirection) :=
  ⟨(handleInput_direction_key "ArrowUp" startState { x := 0, y := -1 } (by decide)).1
      (by decide),
   (handleInput_direction_key "ArrowLeft" startState { x := -1, y := 0 } (by decide)).2.2.1
      (Or.inr (by decide)),
   (handleInput_direction_key "d" startState { x := 1, y := 0 } (by decide)).2.2.1
      (Or.inl (by decide))⟩

/-- C9, as the specification states it, fails: pressing the unrecognised key
"x" in the not-started state changes the state, the game becomes started. -/
theorem handleInput_unrecognised_key_starts_game :
    keyDirection "x" = none ∧
    freshState.gameStarted = false ∧
    (handleInput "x" freshState).gameStarted = true ∧
    handleInput "x" freshState ≠ freshState := by
  decide

/-- C9, amended. For every state and every key that is not a recognised
direction key, `handleInput` (a total function: it raises no error) leaves
snake, direction, nextDirection, food, score, moveInterval, accumulator and
gameOver unchanged; it sets gameStarted when the game had not started and was
not over, and otherwise leaves the whole state unchanged. -/
theorem handleInput_unrecognised_key (key : String) (s : State)
    (hkey : keyDirection key = none) :
    handleInput key s =
      (if !s.gameStarted && !s.gameOver then { s with gameStarted := true } else s) ∧
    (s.gameStarted = true ∨ s.gameOver = true → handleInput key s = s) := by
  have heq : handleInput key s =
      (if !s.gameStarted && !s.gameOver then { s with gameStarted := true } else s) := by
    unfold keyDirection at hkey
    unfold handleInput
    split_ifs at hkey with h1 h2 h3 h4
    simp only [h1, h2, h3, h4, ↓reduceIte]
  refine ⟨heq, ?_⟩
  intro h
  rw [heq]
  rcases h with h | h <;> simp [h]

theorem handleInput_unrecognised_key_witness :
    handleInput "Escape" startState = startState ∧
    handleInput "Escape" freshState = { freshState with gameStarted := true } :=
  ⟨(handleInput_unrecognised_key "Escape" startState (by decide)).2 (Or.inl rfl),
   (handleInput_unrecognised_key "Escape" freshState (by decide)).1⟩

/-- C1. In every state reachable from `initGame` by any sequence of returned
`handleInput`, `update`, overlay click and `restartGame` calls, whatever cells
`spawnFood` accepted: the snake has at least one cell, the food is not on the
snake, the score is non-negative, and whenever the game is running the cells
of the snake are pairwise distinct. -/
theorem reachable_wellformed (s : State) (h : Reachable s) :
    1 ≤ s.snake.length ∧ s.food ∉ s.snake ∧ 0 ≤ s.score ∧
    (Running s → s.snake.Nodup) := by
  have hinv := reachable_inv s h
  refine ⟨?_, hinv.food_off, hinv.score_nonneg, fun _ => hinv.nodup⟩
  have hne := hinv.snake_ne
  cases hs : s.snake with
  | nil => exact absurd hs hne
  | cons a l => simp

theorem reachable_wellformed_witness :
    Reachable startState ∧ Running startState ∧
    1 ≤ startState.snake.length ∧ startState.food ∉ startState.snake ∧
    0 ≤ startState.score ∧ startState.snake.Nodup :=
  ⟨reachable_startState, by decide,
   (reachable_wellformed startState reachable_startState).1,
   (reachable_wellformed startState reachable_startState).2.1,
   (reachable_wellformed startState reachable_startState).2.2.1,
   (reachable_wellformed startState reachable_startState).2.2.2 (by decide)⟩

/-- C6. In every reachable state 70 <= moveInterval <= 140, and every call of
`update` from a reachable state ends with moveInterval less than or equal to
its value before the call. -/
theorem reachable_moveInterval (s : State) (h : Reachable s) :
    70 ≤ s.moveInterval ∧ s.moveInterval ≤ 140 ∧
    ∀ (delta : Double) (draws : List Draw),
      (update delta draws s).state.moveInterval ≤ s.moveInterval := by
  have hinv := reachable_inv s h
  refine ⟨hinv.interval_ge, hinv.interval_le, ?_⟩
  intro delta draws
  have hge := hinv.interval_ge
  rcases update_cases delta draws s with hc | hc | ⟨_, hc⟩
  · rw [hc]; exact le_refl _
  · rw [hc]; exact le_refl _
  · rw [hc]
    rcases tick_moveInterval draws { s with accumulator := 0 } with ht | ht
    · rw [ht]
    · rw [ht]
      simp only
      exact max_le hge (by omega)

theorem reachable_moveInterval_witness :
    Reachable startState ∧
    70 ≤ startState.moveInterval ∧ startState.moveInterval ≤ 140 ∧
    ∀ (delta : Double) (draws : List Draw),
      (update delta draws startState).state.moveInterval ≤ startState.moveInterval :=
  ⟨reachable_startState, reachable_moveInterval startState reachable_startState⟩

/-- C10. In every reachable state the applied and the pending direction are
unit directions and the pending direction is equal to the applied direction or
orthogonal to it, never its reverse; hence no call of `update` (so no tick)
ends with direction equal to the reverse of the direction applied before it,
whatever keys were pressed in between. -/
theorem reachable_no_reversal (s : State) (h : Reachable s) :
    isUnitDir s.direction ∧ isUnitDir s.nextDirection ∧
    (s.nextDirection = s.direction ∨ orthogonal s.nextDirection s.direction) ∧
    s.nextDirection ≠ reverse s.direction ∧
    ∀ (delta : Double) (draws : List Draw),
      (update delta draws s).state.direction ≠ reverse s.direction := by
  have hinv := reachable_inv s h
  have hnext : s.nextDirection ≠ reverse s.direction := by
    rcases hinv.next_ok with hn | hn
    · rw [hn]; exact isUnitDir_ne_reverse _ hinv.dir_unit
    · exact orthogonal_ne_reverse _ _ hinv.dir_unit hn
  refine ⟨hinv.dir_unit, hinv.next_unit, hinv.next_ok, hnext, ?_⟩
  intro delta draws
  rcases update_cases delta draws s with hc | hc | ⟨_, hc⟩
  · rw [hc]; exact isUnitDir_ne_reverse _ hinv.dir_unit
  · rw [hc]; exact isUnitDir_ne_reverse _ hinv.dir_unit
  · rw [hc, tick_direction]; exact hnext

theorem reachable_no_reversal_witness :
    Reachable (handleInput "ArrowLeft" (handleInput "ArrowUp" startState)) ∧
    (handleInput "ArrowLeft" (handleInput "ArrowUp" startState)).nextDirection =
      { x := 0, y := -1 } ∧
    (update 140 [] (handleInput "ArrowLeft" (handleInput "ArrowUp" startState))).state.direction
      ≠ reverse (handleInput "ArrowLeft" (handleInput "ArrowUp" startState)).direction :=
  ⟨Reachable.input _ _ (Reachable.input _ _ reachable_startState), by decide,
   (reachable_no_reversal _
      (Reachable.input "ArrowLeft" _ (Reachable.input "ArrowUp" _ reachable_startState))).2.2.2.2
      140 []⟩

set_option maxRecDepth 100000 in
/-- C2, as the specification states it, fails on a full board: the snake
(399 distinct cells) covers every cell but the food cell, the tick fires and the new head is inside
the grid, off the snake and on the food, yet whatever `Math.random` gives,
`update` never returns: `spawnFood` keeps looping, with no new food (the food
is under the snake's head) and moveInterval not yet assigned. -/
theorem update_eat_full_board_spins :
    Running fullBoardState ∧
    fullBoardState.snake.Nodup ∧ fullBoardState.snake.length = 399 ∧
    Double.ofInt fullBoardState.moveInterval ≤ fullBoardState.accumulator + 70 ∧
    fullBoardState.snake.head? = some { x := 1, y := 0 } ∧
    inGrid (nextHead { x := 1, y := 0 } fullBoardState.nextDirection) ∧
    nextHead { x := 1, y := 0 } fullBoardState.nextDirection ∉ fullBoardState.snake ∧
    nextHead { x := 1, y := 0 } fullBoardState.nextDirection = fullBoardState.food ∧
    ∀ draws : List Draw,
      update 70 draws fullBoardState =
        Outcome.spin (eatPending fullBoardState { x := 0, y := 0 }) ∧
      (∀ s', update 70 draws fullBoardState ≠ Outcome.ret s') ∧
      (update 70 draws fullBoardState).state.food ∈
        (update 70 draws fullBoardState).state.snake := by
  have hr : Running fullBoardState := by decide
  have hfire : Double.ofInt fullBoardState.moveInterval ≤ fullBoardState.accumulator + 70 := by decide
  have hsnake : fullBoardState.snake = { x := 1, y := 0 } :: boardPath.tail.tail := by
    decide
  have hin : inGrid (nextHead { x := 1, y := 0 } fullBoardState.nextDirection) := by
    decide
  have hself : nextHead { x := 1, y := 0 } fullBoardState.nextDirection ∉
      fullBoardState.snake := by
    decide
  have hfood : nextHead { x := 1, y := 0 } fullBoardState.nextDirection =
      fullBoardState.food := by
    decide
  have hpath : nextHead { x := 1, y := 0 } fullBoardState.nextDirection ::
      fullBoardState.snake = boardPath := by
    decide
  have hspin : ∀ draws : List Draw, update 70 draws fullBoardState =
      Outcome.spin (eatPending fullBoardState { x := 0, y := 0 }) := by
    intro draws
    rw [update_eat_outcome 70 draws fullBoardState _ _ hr hfire hsnake hin hself hfood]
    have hnone : spawnFood draws (nextHead { x := 1, y := 0 } fullBoardState.nextDirection ::
        fullBoardState.snake) = none := by
      rw [spawnFood_none_iff, hpath]
      exact fun d _ => drawCell_mem_boardPath d
    rw [hnone]
    rfl
  refine ⟨hr, fullBoardState_nodup, by decide, hfire, by rw [hsnake]; rfl, hin, hself,
    hfood, ?_⟩
  intro draws
  refine ⟨hspin draws, ?_, ?_⟩
  · intro s' hc
    rw [hspin draws] at hc
    exact absurd hc (by simp)
  · rw [hspin draws]
    exact List.mem_cons_self _ _

/-- C2, amended. In a running state in which the tick fires and the new head
(head + pending direction) is inside the grid, is not on the snake and equals
the food cell, and some grid cell is not on the new snake: a draw that is not
on the new snake exists, and once the draws of `spawnFood` contain one,
`update` returns with the snake equal to the new head followed by the whole
previous snake (one cell longer), score increased by 10, moveInterval equal to
max(70, previous moveInterval - 3), and the new food inside the grid and not
on the new snake. -/
theorem update_eat (delta : Double) (s : State) (head : Cell) (rest : List Cell) (c : Cell)
    (hr : Running s) (hfire : Double.ofInt s.moveInterval ≤ s.accumulator + delta)
    (hsnake : s.snake = head :: rest)
    (hin : inGrid (nextHead head s.nextDirection))
    (hself : nextHead head s.nextDirection ∉ s.snake)
    (hfood : nextHead head s.nextDirection = s.food)
    (hc : inGrid c) (hfree : c ∉ nextHead head s.nextDirection :: s.snake) :
    (∃ d : Draw, drawCell d ∉ nextHead head s.nextDirection :: s.snake) ∧
    ∀ draws : List Draw,
      (∃ d ∈ draws, drawCell d ∉ nextHead head s.nextDirection :: s.snake) →
      ∃ f, update delta draws s =
          Outcome.ret (eatResult s (nextHead head s.nextDirection) f) ∧
        (update delta draws s).state.snake = nextHead head s.nextDirection :: s.snake ∧
        (update delta draws s).state.snake.length = s.snake.length + 1 ∧
        (update delta draws s).state.score = s.score + 10 ∧
        (update delta draws s).state.moveInterval = max 70 (s.moveInterval - 3) ∧
        (update delta draws s).state.food = f ∧
        inGrid f ∧ f ∉ (update delta draws s).state.snake := by
  constructor
  · obtain ⟨d, hd⟩ := exists_draw c hc
    exact ⟨d, by rw [hd]; exact hfree⟩
  · intro draws hdraws
    have hout := update_eat_outcome delta draws s head rest hr hfire hsnake hin hself hfood
    cases hsp : spawnFood draws (nextHead head s.nextDirection :: s.snake) with
    | none =>
      exfalso
      obtain ⟨d, hd, hoff⟩ := hdraws
      exact hoff ((spawnFood_none_iff _ _).mp hsp d hd)
    | some f =>
      rw [hsp] at hout
      simp only at hout
      obtain ⟨hf1, hf2, _⟩ := spawnFood_some _ _ _ hsp
      refine ⟨f, hout, ?_, ?_, ?_, ?_, ?_, hf2, ?_⟩ <;> rw [hout]
      · rfl
      · simp [Outcome.state, eatResult]
      · rfl
      · rfl
      · rfl
      · exact hf1

set_option maxRecDepth 100000 in
theorem update_eat_witness :
    (∃ f, update 140 [(⟨6, by decide⟩, ⟨5, by decide⟩), (⟨2, by decide⟩, ⟨2, by decide⟩)]
          feedState =
        Outcome.ret (eatResult feedState { x := 6, y := 5 } f) ∧
      (update 140 [(⟨6, by decide⟩, ⟨5, by decide⟩), (⟨2, by decide⟩, ⟨2, by decide⟩)]
          feedState).state.snake =
        [{ x := 6, y := 5 }, { x := 5, y := 5 }, { x := 4, y := 5 }, { x := 3, y := 5 }]) ∧
    update 140 [(⟨6, by decide⟩, ⟨5, by decide⟩), (⟨2, by decide⟩, ⟨2, by decide⟩)]
        feedState =
      Outcome.ret { feedState with
        snake := [{ x := 6, y := 5 }, { x := 5, y := 5 }, { x := 4, y := 5 }, { x := 3, y := 5 }]
        score := 10
        moveInterval := 137
        food := { x := 2, y := 2 } } := by
  refine ⟨?_, by decide⟩
  obtain ⟨f, h1, h2, _⟩ :=
    (update_eat 140 feedState { x := 5, y := 5 } [{ x := 4, y := 5 }, { x := 3, y := 5 }]
      { x := 2, y := 2 } (by decide) (by decide) rfl (by decide) (by decide) (by decide)
      (by decide) (by decide)).2
      [(⟨6, by decide⟩, ⟨5, by decide⟩), (⟨2, by decide⟩, ⟨2, by decide⟩)]
      ⟨(⟨2, by decide⟩, ⟨2, by decide⟩), by simp, by decide⟩
  exact ⟨f, h1, h2⟩

end NeonSnake
